import Mathlib

/-!
Verification of the radar-chart renderer (`src/radar/radar_chart.py`).

The single function `radar_chart(labels, values, groups, ...)` is embedded
below as a pure function from its three data-bearing arguments to a record
of its observable behaviour: the angular positions it computes, the series
it hands to the plotting backend (vertex list and display name, in order),
and the final outcome (success with an optional legend, or the exception
that aborted the call).  Cosmetic style options (colors, sizes, paddings)
do not influence any of this and are omitted.

Modelling conventions, each tied to a line of the source:
* `values` is typed `Union[List[float], List[List[float]]]`; `ValuesArg`
  is that union, with numbers as exact rationals.
* line 104-105 (`if len(labels) == len(values): values = [values]`) is
  `normalizeValues`.  Depending on the branch taken, the rows iterated by
  the loop are numpy scalars, 1-d series, or a single 2-d block; `Row` is
  that three-way alternative.
* line 116 (`theta = np.arange(len(labels) + 1) / float(len(labels)) * 2 * np.pi`)
  is `thetaList`: entry `i` holds the exact coefficient `i / N * 2` of π,
  and `none` stands for the non-finite float that numpy produces when
  `float(len(labels))` is zero (division by zero).
* line 120 (`value = np.append(value, value[0])`) is `rowFlatten`/`rowFirst`:
  `np.append` ravels both arguments, and `value[0]` on a 0-d or empty array
  raises IndexError (`Err.indexError`).
* lines 123-129 (the `if groups:` block) are `groupName`: the truthiness
  test, the shape comparison raising the Exception with the interpolated
  message (`mismatchMsg`), and the `groups[index][0]` lookup.
* lines 133-142 (`ax.plot`/`ax.fill`) record a `DrawnSeries`; matplotlib
  rejects `x` and `y` of different lengths, modelled as `Err.plotValueError`.
* lines 144-145 (`if len(values) != 1: ax.legend(...)`) give the legend:
  attached only when the loop ran and the series count is not one, holding
  one entry per plotted series in input order.
-/

/-- The `values` argument: either a single flat numeric sequence or a list
of numeric series (the two shapes admitted by the signature). -/
inductive ValuesArg where
  | flat (vs : List ℚ)
  | nested (rows : List (List ℚ))
deriving DecidableEq

/-- One element produced by iterating `np.array(values)` after the
normalization step: a 0-d scalar (flat input that was not wrapped), a 1-d
series, or the whole 2-d block (a nested input that was wrapped again). -/
inductive Row where
  | scalar (q : ℚ)
  | row (vs : List ℚ)
  | mat (rows : List (List ℚ))
deriving DecidableEq

/-- One element of the `groups` argument: a bare string (a flat group
sequence) or a list of strings (the documented list-of-lists shape). -/
inductive GEntry where
  | gstr (s : String)
  | glist (ss : List String)
deriving DecidableEq

/-- The ways a call can abort: an IndexError from indexing a 0-d or empty
array or an empty string, the Exception raised on a group/series count
mismatch (with its message), and matplotlib's ValueError when `theta` and
the vertex list passed to `ax.plot` differ in length. -/
inductive Err where
  | indexError
  | groupMismatch (msg : String)
  | plotValueError
deriving DecidableEq

/-- A series as handed to `ax.plot`/`ax.fill`: its closed vertex sequence
and the display name passed as `label=str(group)`. -/
structure DrawnSeries where
  vertices : List ℚ
  name : String
deriving DecidableEq

/-- Final outcome of a call: normal return carrying the legend state
(`some entries` when a legend is attached), or the exception that ended
the call. -/
inductive Outcome where
  | ok (legend : Option (List String))
  | error (e : Err)
deriving DecidableEq

/-- Observable behaviour of one `radar_chart` call. -/
structure RadarResult where
  theta : List (Option ℚ)
  drawn : List DrawnSeries
  outcome : Outcome
deriving DecidableEq

/-- Entry `i` of the theta array of line 116, as the exact coefficient of
π: `i / N * 2`.  For `N = 0` the source divides by `float(0)`, which numpy
turns into a non-finite float rather than an exception; `none` models that
degenerate value. -/
def thetaEntry (N i : ℕ) : Option ℚ :=
  if N = 0 then none else some ((i : ℚ) / (N : ℚ) * 2)

/-- The theta array of line 116: `N + 1` angular positions. -/
def thetaList (N : ℕ) : List (Option ℚ) :=
  (List.range (N + 1)).map (thetaEntry N)

/-- The angular position `theta[i] = i / N * 2π` of line 116 read as an
exact real number. -/
noncomputable def theta (N i : ℕ) : ℝ :=
  (i : ℝ) / (N : ℝ) * (2 * Real.pi)

/-- Lines 104-105: `if len(labels) == len(values): values = [values]`,
followed by iteration over `np.array(values)`.  A wrapped flat sequence
yields one 1-d row; an unwrapped flat sequence is iterated as 0-d scalars;
a wrapped nested list yields one 2-d block; an unwrapped nested list
yields its series. -/
def normalizeValues (labels : List String) : ValuesArg → List Row
  | .flat vs => if labels.length = vs.length then [.row vs] else vs.map .scalar
  | .nested rows => if labels.length = rows.length then [.mat rows] else rows.map .row

/-- `np.ravel` of a row, as used by `np.append` on line 120. -/
def rowFlatten : Row → List ℚ
  | .scalar q => [q]
  | .row vs => vs
  | .mat rows => rows.flatten

/-- `value[0]` on line 120, already ravelled for `np.append`: indexing a
0-d scalar or an empty array raises IndexError. -/
def rowFirst : Row → Except Err (List ℚ)
  | .scalar _ => .error .indexError
  | .row [] => .error .indexError
  | .row (q :: _) => .ok [q]
  | .mat [] => .error .indexError
  | .mat (r :: _) => .ok r

/-- `groups[index][0]` for one group entry: the first character of a bare
string, or the first element of a list entry; empty either way raises
IndexError. -/
def entryGet0 : GEntry → Except Err String
  | .gstr s => if s.isEmpty then .error .indexError else .ok (s.take 1)
  | .glist [] => .error .indexError
  | .glist (s :: _) => .ok s

/-- Line 132: the positional default display name `f"Group {index + 1}"`. -/
def defaultName (index : ℕ) : String :=
  "Group " ++ toString (index + 1)

/-- The message of the Exception raised on lines 125-129, with the two
counts interpolated exactly as in the source f-string. -/
def mismatchMsg (vcount gcount : ℕ) : String :=
  "To visualize multiple polygons the value and group arrays should have the same number of samples. The value array has "
    ++ toString vcount ++ " samples and group array has "
    ++ toString gcount ++ " samples. "

/-- Lines 123-132: resolve the display name of series `index`.  `if groups:`
is Python truthiness, so `None` and an empty list both take the default
branch; otherwise the shape comparison may raise the mismatch Exception,
and then `groups[index][0]` is looked up. -/
def groupName (groups : Option (List GEntry)) (seriesCount index : ℕ) :
    Except Err String :=
  match groups with
  | none => .ok (defaultName index)
  | some gs =>
    if gs.isEmpty then .ok (defaultName index)
    else if gs.length ≠ seriesCount then
      .error (.groupMismatch (mismatchMsg seriesCount gs.length))
    else
      match gs[index]? with
      | none => .error .indexError
      | some e => entryGet0 e

/-- Lines 119-145, the drawing loop: for each row, close the polygon
(line 120), resolve the display name (lines 123-132, which can raise),
then plot (lines 133-142, which matplotlib rejects when the vertex count
differs from the theta count).  Returns the series drawn before the loop
ended together with the exception that stopped it, if any. -/
def drawLoop (theta : List (Option ℚ)) (groups : Option (List GEntry))
    (seriesCount : ℕ) : List Row → ℕ → List DrawnSeries × Option Err
  | [], _ => ([], none)
  | value :: rest, index =>
    match rowFirst value with
    | .error e => ([], some e)
    | .ok first =>
      let closed := rowFlatten value ++ first
      match groupName groups seriesCount index with
      | .error e => ([], some e)
      | .ok name =>
        if closed.length = theta.length then
          (⟨closed, name⟩ :: (drawLoop theta groups seriesCount rest (index + 1)).1,
            (drawLoop theta groups seriesCount rest (index + 1)).2)
        else ([], some .plotValueError)

/-- Lines 144-145: `if len(values) != 1: ax.legend(...)` runs inside the
loop, so a legend exists exactly when the loop ran at least once with a
series count different from one; its entries are the labels of the series
plotted so far, in order. -/
def legendOf (seriesCount : ℕ) (drawn : List DrawnSeries) : Option (List String) :=
  if seriesCount = 1 then none
  else if seriesCount = 0 then none
  else some (drawn.map DrawnSeries.name)

/-- The whole of `radar_chart`: normalize `values`, compute `theta`, run
the drawing loop, and attach a legend exactly when the loop ran with a
series count different from one (lines 144-145). -/
def radar_chart (labels : List String) (values : ValuesArg)
    (groups : Option (List GEntry)) : RadarResult :=
  let rows := normalizeValues labels values
  let th := thetaList labels.length
  let res := drawLoop th groups rows.length rows 0
  { theta := th
    drawn := res.1
    outcome :=
      match res.2 with
      | some e => .error e
      | none => .ok (legendOf rows.length res.1) }

/-- Whether an outcome is the group/series count-mismatch Exception. -/
def isGroupMismatch : Outcome → Bool
  | .error (.groupMismatch _) => true
  | _ => false

/-- Whether a loop termination is the mismatch Exception. -/
def isMismatchEnd : Option Err → Bool
  | some (.groupMismatch _) => true
  | _ => false

/-- The list of `DrawnSeries` produced by a run of the loop over 1-d rows
that all get drawn: row `r` at position `i` is plotted as `r` closed with
its own first value, under name `f i`. -/
def drawnOf (f : ℕ → String) : ℕ → List (List ℚ) → List DrawnSeries
  | _, [] => []
  | i, r :: rest => ⟨r ++ [r.headI], f i⟩ :: drawnOf f (i + 1) rest

example : rowFlatten (.mat [[1, 2], [3, 4]]) = [1, 2, 3, 4] := by decide

example :
    (radar_chart ["A", "B", "C"] (.flat [1, 2, 3]) none).drawn =
      [⟨[1, 2, 3, 1], "Group 1"⟩] := by decide

example :
    (radar_chart ["A", "B", "C"] (.flat [1, 2, 3]) none).outcome = .ok none := by
  decide

example :
    (radar_chart ["A", "B", "C"] (.nested [[1, 2, 3], [4, 5, 6]]) none).outcome =
      .ok (some ["Group 1", "Group 2"]) := by decide

example :
    (radar_chart ["A", "B", "C"] (.nested [[1, 2, 3], [4, 5, 6]])
        (some [.gstr "x"])).outcome =
      .error (.groupMismatch (mismatchMsg 2 1)) := by decide

theorem radar_chart_theta_def (labels : List String) (values : ValuesArg)
    (groups : Option (List GEntry)) :
    (radar_chart labels values groups).theta = thetaList labels.length := rfl

theorem radar_chart_drawn_def (labels : List String) (values : ValuesArg)
    (groups : Option (List GEntry)) :
    (radar_chart labels values groups).drawn =
      (drawLoop (thetaList labels.length) groups
        (normalizeValues labels values).length (normalizeValues labels values) 0).1 := rfl

theorem radar_chart_outcome_def (labels : List String) (values : ValuesArg)
    (groups : Option (List GEntry)) :
    (radar_chart labels values groups).outcome =
      match (drawLoop (thetaList labels.length) groups
          (normalizeValues labels values).length (normalizeValues labels values) 0).2 with
      | some e => .error e
      | none =>
        .ok (legendOf (normalizeValues labels values).length
          (drawLoop (thetaList labels.length) groups
            (normalizeValues labels values).length (normalizeValues labels values) 0).1) := rfl

theorem thetaList_length (N : ℕ) : (thetaList N).length = N + 1 := by
  simp [thetaList]

theorem drawnOf_length (f : ℕ → String) (i : ℕ) (rows : List (List ℚ)) :
    (drawnOf f i rows).length = rows.length := by
  induction rows generalizing i with
  | nil => rfl
  | cons r rest ih => simp [drawnOf, ih]

theorem drawnOf_map_vertices (f : ℕ → String) (i : ℕ) (rows : List (List ℚ)) :
    (drawnOf f i rows).map DrawnSeries.vertices
      = rows.map (fun r => r ++ [r.headI]) := by
  induction rows generalizing i with
  | nil => rfl
  | cons r rest ih => simp [drawnOf, ih]

theorem drawnOf_map_name (f : ℕ → String) (i : ℕ) (rows : List (List ℚ)) :
    (drawnOf f i rows).map DrawnSeries.name
      = (List.range rows.length).map (fun k => f (i + k)) := by
  induction rows generalizing i with
  | nil => rfl
  | cons r rest ih =>
    simp only [drawnOf, List.map_cons, List.length_cons, ih,
      List.range_succ_eq_map, List.map_map]
    refine congrArg₂ List.cons (by simp) (List.map_congr_left fun k _ => ?_)
    show f (i + 1 + k) = f (i + (k + 1))
    congr 1
    omega

theorem rowFirst_error {v : Row} {e : Err} (h : rowFirst v = .error e) :
    e = .indexError := by
  cases v with
  | scalar q => simp [rowFirst] at h; exact h.symm
  | row vs =>
    cases vs with
    | nil => simp [rowFirst] at h; exact h.symm
    | cons a l => simp [rowFirst] at h
  | mat rows =>
    cases rows with
    | nil => simp [rowFirst] at h; exact h.symm
    | cons r rest => simp [rowFirst] at h

theorem groupName_none (cnt k : ℕ) :
    groupName none cnt k = .ok (defaultName k) := rfl

theorem groupName_some_nil (cnt k : ℕ) :
    groupName (some []) cnt k = .ok (defaultName k) := rfl

theorem groupName_no_mismatch_of_ok {g : Option (List GEntry)} {cnt i : ℕ}
    {s : String} (h : groupName g cnt i = .ok s) (j : ℕ) (m : String) :
    groupName g cnt j ≠ .error (.groupMismatch m) := by
  cases g with
  | none => simp [groupName]
  | some gs =>
    by_cases he : gs.isEmpty
    · simp [groupName, he]
    · by_cases hl : gs.length = cnt
      · simp only [groupName, he, if_false, hl, ne_eq, not_true_eq_false, if_neg,
          not_false_eq_true]
        cases hj : gs[j]? with
        | none => simp
        | some e =>
          simp only
          cases e with
          | gstr s' =>
            by_cases h0 : s'.isEmpty <;> simp [entryGet0, h0]
          | glist ss => cases ss <;> simp [entryGet0]
      · exfalso
        simp [groupName, he, hl] at h

theorem drawLoop_row_ok (th : List (Option ℚ)) (g : Option (List GEntry))
    (cnt : ℕ) (rows : List (List ℚ)) (i0 : ℕ) (f : ℕ → String)
    (hname : ∀ k, i0 ≤ k → k < i0 + rows.length → groupName g cnt k = .ok (f k))
    (hrow : ∀ r ∈ rows, r ≠ [] ∧ r.length + 1 = th.length) :
    drawLoop th g cnt (rows.map Row.row) i0 = (drawnOf f i0 rows, none) := by
  induction rows generalizing i0 with
  | nil => rfl
  | cons r rest ih =>
    obtain ⟨hne, hlen⟩ := hrow r (by simp)
    obtain ⟨q, r', rfl⟩ : ∃ q r', r = q :: r' := by
      cases r with
      | nil => exact absurd rfl hne
      | cons a b => exact ⟨a, b, rfl⟩
    have hn : groupName g cnt i0 = .ok (f i0) := hname i0 le_rfl (by simp)
    have hrec := ih (i0 + 1)
        (fun k hk1 hk2 => hname k (by omega) (by simp at hk2 ⊢; omega))
        (fun r hr => hrow r (by simp [hr]))
    simp only [List.map_cons, drawLoop, rowFirst, rowFlatten, hn, hrec]
    rw [if_pos (by simpa using hlen)]
    simp [drawnOf, List.headI]

theorem drawLoop_some_nil (th : List (Option ℚ)) (cnt : ℕ)
    (rows : List Row) (i : ℕ) :
    drawLoop th (some []) cnt rows i = drawLoop th none cnt rows i := by
  induction rows generalizing i with
  | nil => rfl
  | cons v rest ih =>
    simp only [drawLoop]
    rcases hf : rowFirst v with e | first
    · rfl
    · simp only [groupName_some_nil, groupName_none, ih]

theorem drawLoop_no_mismatch (th : List (Option ℚ)) (g : Option (List GEntry))
    (cnt : ℕ)
    (hg : ∀ j m, groupName g cnt j ≠ .error (.groupMismatch m)) :
    ∀ (rows : List Row) (i : ℕ),
      isMismatchEnd (drawLoop th g cnt rows i).2 = false := by
  intro rows
  induction rows with
  | nil => intro i; rfl
  | cons v rest ih =>
    intro i
    simp only [drawLoop]
    rcases hf : rowFirst v with e | first
    · have := rowFirst_error hf
      subst this
      rfl
    · rcases hn : groupName g cnt i with e | name
      · cases e with
        | indexError => rfl
        | groupMismatch m => exact absurd hn (hg i m)
        | plotValueError => rfl
      · by_cases hc : (rowFlatten v ++ first).length = th.length
        · simpa [hc] using ih (i + 1)
        · have hc' : ¬((rowFlatten v).length + first.length = th.length) := by
            simpa using hc
          simp [hc', isMismatchEnd]

theorem drawLoop_mismatch_nil (th : List (Option ℚ)) (g : Option (List GEntry))
    (cnt : ℕ) (rows : List Row) (i : ℕ) {m : String}
    (h : (drawLoop th g cnt rows i).2 = some (.groupMismatch m)) :
    (drawLoop th g cnt rows i).1 = [] := by
  induction rows generalizing i with
  | nil => rfl
  | cons v rest ih =>
    simp only [drawLoop] at h ⊢
    rcases hf : rowFirst v with e | first
    · simp [hf]
    · simp only [hf] at h ⊢
      rcases hn : groupName g cnt i with e | name
      · simp [hn]
      · simp only [hn] at h ⊢
        by_cases hc : (rowFlatten v ++ first).length = th.length
        · exfalso
          simp only [hc, if_true] at h
          have hnm := drawLoop_no_mismatch th g cnt
            (fun j m' => groupName_no_mismatch_of_ok hn j m') rest (i + 1)
          rw [h] at hnm
          simp [isMismatchEnd] at hnm
        · have hc' : ¬((rowFlatten v).length + first.length = th.length) := by
            simpa using hc
          simp [hc'] at h

theorem drawLoop_none_names (th : List (Option ℚ)) (cnt : ℕ) :
    ∀ (rows : List Row) (i : ℕ),
      ((drawLoop th none cnt rows i).1).map DrawnSeries.name
        = (List.range (drawLoop th none cnt rows i).1.length).map
            (fun k => defaultName (i + k)) := by
  intro rows
  induction rows with
  | nil => intro i; rfl
  | cons v rest ih =>
    intro i
    simp only [drawLoop]
    rcases hf : rowFirst v with e | first
    · rfl
    · simp only [groupName_none]
      by_cases hc : (rowFlatten v ++ first).length = th.length
      · simp only [hc, if_true, List.map_cons, List.length_cons,
          List.range_succ_eq_map, List.map_map, ih (i + 1)]
        refine congrArg₂ List.cons (by simp) (List.map_congr_left fun k _ => ?_)
        show defaultName (i + 1 + k) = defaultName (i + (k + 1))
        congr 1
        omega
      · have hc' : ¬((rowFlatten v).length + first.length = th.length) := by
          simpa using hc
        simp [hc']

theorem radar_chart_nested_ok (labels : List String) (rows : List (List ℚ))
    (g : Option (List GEntry)) (f : ℕ → String)
    (hN : 1 ≤ labels.length)
    (hlen : ∀ r ∈ rows, r.length = labels.length)
    (hnowrap : rows.length ≠ labels.length)
    (hname : ∀ k, k < rows.length → groupName g rows.length k = .ok (f k)) :
    radar_chart labels (.nested rows) g =
      ⟨thetaList labels.length, drawnOf f 0 rows,
        .ok (legendOf rows.length (drawnOf f 0 rows))⟩ := by
  have hnorm : normalizeValues labels (.nested rows) = rows.map Row.row := by
    simp only [normalizeValues]
    rw [if_neg (fun h => hnowrap h.symm)]
  have hloop : drawLoop (thetaList labels.length) g rows.length
      (rows.map Row.row) 0 = (drawnOf f 0 rows, none) := by
    apply drawLoop_row_ok
    · intro k _ hk2
      exact hname k (by simpa using hk2)
    · intro r hr
      refine ⟨?_, ?_⟩
      · intro h0
        have := hlen r hr
        rw [h0] at this
        simp at this
        omega
      · rw [hlen r hr, thetaList_length]
  simp only [radar_chart, hnorm, List.length_map, hloop]

theorem range_map_getD {α β : Type} (l : List α) (d : α) (g : α → β) :
    (List.range l.length).map (fun k => g (l.getD k d)) = l.map g := by
  induction l with
  | nil => rfl
  | cons a t ih =>
    simp only [List.length_cons, List.range_succ_eq_map, List.map_cons, List.map_map]
    refine congrArg₂ List.cons (by simp) ?_
    have hco : ((fun k => g ((a :: t).getD k d)) ∘ Nat.succ)
        = (fun k => g (t.getD k d)) := by
      funext k
      simp [Function.comp, List.getD_cons_succ]
    rw [hco, ih]

theorem groupName_flat (names : List String) (cnt k : ℕ)
    (h0 : names ≠ []) (h1 : names.length = cnt) (h2 : k < cnt)
    (h3 : ∀ s ∈ names, s ≠ "") :
    groupName (some (names.map GEntry.gstr)) cnt k
      = .ok ((names.getD k "").take 1) := by
  have hk : k < names.length := by omega
  have hne : ¬(names.map GEntry.gstr).isEmpty := by
    simp [h0]
  have hlen2 : (names.map GEntry.gstr).length = cnt := by
    simp [h1]
  have hidx : (names.map GEntry.gstr)[k]? = some (.gstr (names.getD k "")) := by
    rw [List.getElem?_map, List.getElem?_eq_getElem hk]
    rw [List.getD_eq_getElem names "" hk]
    rfl
  have hs : ¬(names.getD k "").isEmpty := by
    have hmem : names.getD k "" ∈ names := by
      rw [List.getD_eq_getElem names "" hk]
      exact List.getElem_mem hk
    simpa [String.isEmpty_iff] using h3 _ hmem
  simp only [groupName, hne, hlen2, hidx, entryGet0, hs]
  simp

theorem groupName_nested (names : List String) (cnt k : ℕ)
    (h0 : names ≠ []) (h1 : names.length = cnt) (h2 : k < cnt) :
    groupName (some (names.map fun s => GEntry.glist [s])) cnt k
      = .ok (names.getD k "") := by
  have hk : k < names.length := by omega
  have hne : ¬(names.map fun s => GEntry.glist [s]).isEmpty := by
    simp [h0]
  have hlen2 : (names.map fun s => GEntry.glist [s]).length = cnt := by
    simp [h1]
  have hidx : (names.map fun s => GEntry.glist [s])[k]?
      = some (.glist [names.getD k ""]) := by
    rw [List.getElem?_map, List.getElem?_eq_getElem hk]
    rw [List.getD_eq_getElem names "" hk]
    rfl
  simp [groupName, hne, hlen2, hidx, entryGet0]

/-- C1: for every input series of length N (the rows of a nested `values`
argument whose series survive normalization separately), the vertex
sequence actually drawn for that series is the series with its first value
appended at the end, so it has length N + 1 and its last vertex equals its
first. -/
theorem radar_closed_polygon (labels : List String) (rows : List (List ℚ))
    (hN : 1 ≤ labels.length)
    (hlen : ∀ r ∈ rows, r.length = labels.length)
    (hnowrap : rows.length ≠ labels.length) :
    (radar_chart labels (.nested rows) none).drawn.map DrawnSeries.vertices
      = rows.map (fun r => r ++ [r.headI])
  ∧ ∀ d ∈ (radar_chart labels (.nested rows) none).drawn,
      d.vertices.length = labels.length + 1
      ∧ d.vertices.getLast? = d.vertices.head? := by
  have h := radar_chart_nested_ok labels rows none defaultName hN hlen hnowrap
    (fun k _ => rfl)
  rw [h]
  dsimp only
  constructor
  · exact drawnOf_map_vertices _ _ _
  · intro d hd
    have hv : d.vertices ∈ (drawnOf defaultName 0 rows).map DrawnSeries.vertices :=
      List.mem_map_of_mem _ hd
    rw [drawnOf_map_vertices] at hv
    obtain ⟨r, hr, hveq⟩ := List.mem_map.mp hv
    have hrlen := hlen r hr
    obtain ⟨a, l, rfl⟩ : ∃ a l, r = a :: l := by
      cases r with
      | nil => simp at hrlen; omega
      | cons a l => exact ⟨a, l, rfl⟩
    constructor
    · rw [← hveq]
      simp at hrlen ⊢
      omega
    · rw [← hveq]
      show ((a :: l) ++ [(a :: l).headI]).getLast?
          = ((a :: l) ++ [(a :: l).headI]).head?
      rw [List.getLast?_concat]
      simp

theorem radar_closed_polygon_witness :
    (1 ≤ (["A", "B", "C"] : List String).length)
  ∧ (∀ r ∈ ([[1, 2, 3], [4, 5, 6]] : List (List ℚ)),
      r.length = (["A", "B", "C"] : List String).length)
  ∧ (([[1, 2, 3], [4, 5, 6]] : List (List ℚ)).length
      ≠ (["A", "B", "C"] : List String).length)
  ∧ ((radar_chart ["A", "B", "C"] (.nested [[1, 2, 3], [4, 5, 6]]) none).drawn.map
        DrawnSeries.vertices
      = ([[1, 2, 3], [4, 5, 6]] : List (List ℚ)).map (fun r => r ++ [r.headI])
    ∧ ∀ d ∈ (radar_chart ["A", "B", "C"] (.nested [[1, 2, 3], [4, 5, 6]]) none).drawn,
        d.vertices.length = (["A", "B", "C"] : List String).length + 1
        ∧ d.vertices.getLast? = d.vertices.head?) :=
  ⟨by decide, by decide, by decide,
    radar_closed_polygon ["A", "B", "C"] [[1, 2, 3], [4, 5, 6]]
      (by decide) (by decide) (by decide)⟩

/-- C2: for N ≥ 1 labels the source computes N + 1 angular positions with
`theta[i] = i / N * 2π`; the first N are in [0, 2π), strictly increasing
and evenly spaced with gap 2π / N, and the N-th position is the same angle
as the first (one full turn later). -/
theorem radar_angular_spacing (N : ℕ) (hN : 1 ≤ N) :
    (thetaList N).length = N + 1
  ∧ (∀ i, i ≤ N → (thetaList N)[i]? = some (some ((i : ℚ) / (N : ℚ) * 2))
      ∧ theta N i = (((i : ℚ) / (N : ℚ) * 2 : ℚ) : ℝ) * Real.pi)
  ∧ (∀ i, i < N → 0 ≤ theta N i ∧ theta N i < 2 * Real.pi)
  ∧ (∀ i j, i < j → j < N → theta N i < theta N j)
  ∧ (∀ i, i < N → theta N (i + 1) - theta N i = 2 * Real.pi / N)
  ∧ (theta N N : Real.Angle) = (theta N 0 : Real.Angle) := by
  have hN0 : N ≠ 0 := by omega
  have hNr : (N : ℝ) ≠ 0 := Nat.cast_ne_zero.mpr hN0
  have hNpos : (0 : ℝ) < N := by exact_mod_cast Nat.pos_of_ne_zero hN0
  refine ⟨thetaList_length N, ?_, ?_, ?_, ?_, ?_⟩
  · intro i hi
    have hi2 : i < N + 1 := by omega
    constructor
    · simp [thetaList, List.getElem?_range hi2, thetaEntry, hN0]
    · unfold theta
      push_cast
      ring
  · intro i hi
    constructor
    · unfold theta
      positivity
    · unfold theta
      have h1 : (i : ℝ) / N < 1 := (div_lt_one hNpos).mpr (by exact_mod_cast hi)
      calc (i : ℝ) / N * (2 * Real.pi) < 1 * (2 * Real.pi) :=
            mul_lt_mul_of_pos_right h1 (by positivity)
        _ = 2 * Real.pi := one_mul _
  · intro i j hij hj
    unfold theta
    have hij' : (i : ℝ) < j := by exact_mod_cast hij
    have hdiv : (i : ℝ) / N < (j : ℝ) / N := by gcongr
    exact mul_lt_mul_of_pos_right hdiv (by positivity)
  · intro i hi
    unfold theta
    push_cast
    field_simp
    ring
  · have hNN : theta N N = 2 * Real.pi := by
      unfold theta
      rw [div_self hNr, one_mul]
    have h00 : theta N 0 = 0 := by simp [theta]
    rw [hNN, h00, Real.Angle.coe_two_pi, Real.Angle.coe_zero]

theorem radar_angular_spacing_witness :
    1 ≤ 6
  ∧ ((thetaList 6).length = 6 + 1
    ∧ (∀ i : ℕ, i ≤ 6 → (thetaList 6)[i]? = some (some ((i : ℚ) / (6 : ℚ) * 2))
        ∧ theta 6 i = (((i : ℚ) / (6 : ℚ) * 2 : ℚ) : ℝ) * Real.pi)
    ∧ (∀ i : ℕ, i < 6 → 0 ≤ theta 6 i ∧ theta 6 i < 2 * Real.pi)
    ∧ (∀ i j : ℕ, i < j → j < 6 → theta 6 i < theta 6 j)
    ∧ (∀ i : ℕ, i < 6 → theta 6 (i + 1) - theta 6 i = 2 * Real.pi / 6)
    ∧ (theta 6 6 : Real.Angle) = (theta 6 0 : Real.Angle)) :=
  ⟨by decide, radar_angular_spacing 6 (by decide)⟩

/-- C3 counterexample: with two series and a supplied group sequence of
length zero (which differs from the series count), no error is raised at
all; the call completes normally because the truthiness test skips the
whole group block. -/
theorem radar_group_mismatch_cex :
    (radar_chart ["A", "B", "C"] (.nested [[1, 2, 3], [4, 5, 6]])
        (some [])).outcome = .ok (some ["Group 1", "Group 2"]) := by decide

/-- C3 amended: when the supplied group sequence is non-empty (an empty
one is treated as absent), at least one series is present and the first
series is non-empty (the check sits inside the loop, after `value[0]` of
the first iteration), a group count different from the series count makes
the call raise the mismatch Exception whose message interpolates both
counts. -/
theorem radar_group_mismatch_reports_counts (labels : List String)
    (rows : List (List ℚ)) (gs : List GEntry)
    (hg : gs ≠ [])
    (hrows : rows ≠ [])
    (hfirst : rows.headI ≠ [])
    (hnowrap : rows.length ≠ labels.length)
    (hmis : gs.length ≠ rows.length) :
    (radar_chart labels (.nested rows) (some gs)).outcome
      = .error (.groupMismatch (mismatchMsg rows.length gs.length))
  ∧ mismatchMsg rows.length gs.length
      = "To visualize multiple polygons the value and group arrays should have the same number of samples. The value array has "
        ++ toString rows.length ++ " samples and group array has "
        ++ toString gs.length ++ " samples. " := by
  refine ⟨?_, rfl⟩
  obtain ⟨r, rest, rfl⟩ : ∃ r rest, rows = r :: rest := by
    cases rows with
    | nil => exact absurd rfl hrows
    | cons a b => exact ⟨a, b, rfl⟩
  obtain ⟨q, r', rfl⟩ : ∃ q r', r = q :: r' := by
    cases r with
    | nil => simp [List.headI] at hfirst
    | cons a b => exact ⟨a, b, rfl⟩
  have hnorm : normalizeValues labels (.nested ((q :: r') :: rest))
      = ((q :: r') :: rest).map Row.row := by
    simp only [normalizeValues]
    rw [if_neg (fun h => hnowrap h.symm)]
  have hgn : groupName (some gs) (((q :: r') :: rest).map Row.row).length 0
      = .error (.groupMismatch
          (mismatchMsg ((q :: r') :: rest).length gs.length)) := by
    have hne : ¬gs.isEmpty := by simp [hg]
    have hl : gs.length ≠ (((q :: r') :: rest).map Row.row).length := by
      simpa using hmis
    simp only [groupName, hne, if_false, List.length_map] at hl ⊢
    rw [if_neg (by simp [hne]), if_pos (by simpa using hl)]
  rw [radar_chart_outcome_def, hnorm]
  simp only [List.map_cons, drawLoop, rowFirst]
  rw [show groupName (some gs) ((Row.row (q :: r') :: rest.map Row.row)).length 0
      = .error (.groupMismatch (mismatchMsg ((q :: r') :: rest).length gs.length))
    from by simpa using hgn]

theorem radar_group_mismatch_reports_counts_witness :
    (([.gstr "x"] : List GEntry) ≠ [])
  ∧ (([[1, 2, 3], [4, 5, 6]] : List (List ℚ)) ≠ [])
  ∧ (([[1, 2, 3], [4, 5, 6]] : List (List ℚ)).headI ≠ [])
  ∧ (([[1, 2, 3], [4, 5, 6]] : List (List ℚ)).length
      ≠ (["A", "B", "C"] : List String).length)
  ∧ (([.gstr "x"] : List GEntry) ≠ [] →
      ([[1, 2, 3], [4, 5, 6]] : List (List ℚ)).length
        = ([[1, 2, 3], [4, 5, 6]] : List (List ℚ)).length)
  ∧ (([.gstr "x"] : List GEntry)).length ≠ ([[1, 2, 3], [4, 5, 6]] : List (List ℚ)).length
  ∧ ((radar_chart ["A", "B", "C"] (.nested [[1, 2, 3], [4, 5, 6]])
        (some [.gstr "x"])).outcome
      = .error (.groupMismatch
          (mismatchMsg ([[1, 2, 3], [4, 5, 6]] : List (List ℚ)).length
            ([.gstr "x"] : List GEntry).length))
    ∧ mismatchMsg ([[1, 2, 3], [4, 5, 6]] : List (List ℚ)).length
          ([.gstr "x"] : List GEntry).length
        = "To visualize multiple polygons the value and group arrays should have the same number of samples. The value array has "
          ++ toString ([[1, 2, 3], [4, 5, 6]] : List (List ℚ)).length
          ++ " samples and group array has "
          ++ toString ([.gstr "x"] : List GEntry).length ++ " samples. ") :=
  ⟨by decide, by decide, by decide, by decide, fun _ => rfl, by decide,
    radar_group_mismatch_reports_counts ["A", "B", "C"] [[1, 2, 3], [4, 5, 6]]
      [.gstr "x"] (by decide) (by decide) (by decide) (by decide) (by decide)⟩

/-- C4 counterexample: with two series and one group name, the mismatch
Exception is raised during the first loop iteration, before any `ax.plot`
call, so zero series — not "at least one" — have been drawn when the
error is detected. -/
theorem radar_no_partial_draw_cex :
    (radar_chart ["A", "B", "C"] (.nested [[0, 1, 2], [3, 4, 5]])
        (some [.glist ["G"]])).drawn = []
  ∧ isGroupMismatch (radar_chart ["A", "B", "C"] (.nested [[0, 1, 2], [3, 4, 5]])
        (some [.glist ["G"]])).outcome = true :=
  ⟨by decide, by decide⟩

/-- C4 amended: the group-count check sits inside the per-series loop but
runs before each iteration's draw call, and its condition does not depend
on the loop index; hence whenever a call ends with the mismatch Exception,
it was raised in the first iteration and no series at all has been drawn
(only the empty figure and axes were created). -/
theorem radar_mismatch_draws_nothing (labels : List String) (values : ValuesArg)
    (groups : Option (List GEntry)) (m : String)
    (h : (radar_chart labels values groups).outcome
        = .error (.groupMismatch m)) :
    (radar_chart labels values groups).drawn = [] := by
  rw [radar_chart_outcome_def] at h
  rw [radar_chart_drawn_def]
  rcases h2 : (drawLoop (thetaList labels.length) groups
      (normalizeValues labels values).length (normalizeValues labels values) 0).2
    with _ | e
  · rw [h2] at h
    simp at h
  · rw [h2] at h
    have he : e = .groupMismatch m := by
      simpa using h
    subst he
    exact drawLoop_mismatch_nil _ _ _ _ _ h2

theorem radar_mismatch_draws_nothing_witness :
    ((radar_chart ["L1", "L2", "L3"] (.nested [[7, 8, 9], [1, 1, 1]])
        (some [.gstr "a"])).outcome
      = .error (.groupMismatch (mismatchMsg 2 1)))
  ∧ (radar_chart ["L1", "L2", "L3"] (.nested [[7, 8, 9], [1, 1, 1]])
        (some [.gstr "a"])).drawn = [] :=
  ⟨by decide,
    radar_mismatch_draws_nothing ["L1", "L2", "L3"]
      (.nested [[7, 8, 9], [1, 1, 1]]) (some [.gstr "a"])
      (mismatchMsg 2 1) (by decide)⟩

/-- C5: a flat numeric sequence whose length equals the label count is
promoted to a one-element list of series, and the whole call behaves
identically to passing the same sequence wrapped as a one-element list of
series — for any group argument. -/
theorem radar_arity_normalization (labels : List String) (vs : List ℚ)
    (g : Option (List GEntry)) (h : vs.length = labels.length) :
    normalizeValues labels (.flat vs) = [Row.row vs]
  ∧ radar_chart labels (.flat vs) g = radar_chart labels (.nested [vs]) g := by
  have h1 : normalizeValues labels (.flat vs) = [Row.row vs] := by
    simp [normalizeValues, h.symm]
  refine ⟨h1, ?_⟩
  by_cases hone : labels.length = 1
  · obtain ⟨q, rfl⟩ : ∃ q, vs = [q] := List.length_eq_one.mp (by omega)
    have h2 : normalizeValues labels (.nested [[q]]) = [Row.mat [[q]]] := by
      simp [normalizeValues, hone]
    have hloop : ∀ cnt, drawLoop (thetaList labels.length) g cnt [Row.row [q]] 0
        = drawLoop (thetaList labels.length) g cnt [Row.mat [[q]]] 0 := by
      intro cnt
      simp only [drawLoop, rowFirst, rowFlatten, List.flatten_cons,
        List.flatten_nil, List.append_nil]
    simp only [radar_chart, h1, h2, List.length_singleton, hloop]
  · have h2 : normalizeValues labels (.nested [vs]) = [Row.row vs] := by
      simp only [normalizeValues, List.length_singleton]
      rw [if_neg hone]
      rfl
    simp only [radar_chart, h1, h2]

theorem radar_arity_normalization_witness :
    (([1, 2, 3] : List ℚ).length = (["A", "B", "C"] : List String).length)
  ∧ (normalizeValues ["A", "B", "C"] (.flat [1, 2, 3]) = [Row.row [1, 2, 3]]
    ∧ radar_chart ["A", "B", "C"] (.flat [1, 2, 3]) none
        = radar_chart ["A", "B", "C"] (.nested [[1, 2, 3]]) none) :=
  ⟨by decide,
    radar_arity_normalization ["A", "B", "C"] [1, 2, 3] none (by decide)⟩

/-- C6: on a successful call over separately-kept series, a legend is
attached if and only if more than one series is present, and when attached
it holds exactly one entry per series, in input order (the display names
of the drawn series). -/
theorem radar_legend_iff_multiple (labels : List String) (rows : List (List ℚ))
    (hN : 1 ≤ labels.length)
    (hlen : ∀ r ∈ rows, r.length = labels.length)
    (hnowrap : rows.length ≠ labels.length) :
    (radar_chart labels (.nested rows) none).outcome =
      .ok (if 1 < rows.length
        then some ((radar_chart labels (.nested rows) none).drawn.map
          DrawnSeries.name)
        else none)
  ∧ (radar_chart labels (.nested rows) none).drawn.length = rows.length := by
  have h := radar_chart_nested_ok labels rows none defaultName hN hlen hnowrap
    (fun k _ => rfl)
  rw [h]
  dsimp only
  refine ⟨?_, drawnOf_length _ _ _⟩
  by_cases h1 : rows.length = 1
  · simp [legendOf, h1]
  · by_cases h0 : rows.length = 0
    · simp [legendOf, h0]
    · have hlt : 1 < rows.length := by omega
      simp [legendOf, h0, h1, hlt]

theorem radar_legend_iff_multiple_witness :
    (1 ≤ (["A", "B", "C"] : List String).length)
  ∧ (∀ r ∈ ([[2, 4, 6], [1, 3, 5]] : List (List ℚ)),
      r.length = (["A", "B", "C"] : List String).length)
  ∧ (([[2, 4, 6], [1, 3, 5]] : List (List ℚ)).length
      ≠ (["A", "B", "C"] : List String).length)
  ∧ ((radar_chart ["A", "B", "C"] (.nested [[2, 4, 6], [1, 3, 5]]) none).outcome =
      .ok (if 1 < ([[2, 4, 6], [1, 3, 5]] : List (List ℚ)).length
        then some ((radar_chart ["A", "B", "C"]
          (.nested [[2, 4, 6], [1, 3, 5]]) none).drawn.map DrawnSeries.name)
        else none)
    ∧ (radar_chart ["A", "B", "C"] (.nested [[2, 4, 6], [1, 3, 5]]) none).drawn.length
        = ([[2, 4, 6], [1, 3, 5]] : List (List ℚ)).length) :=
  ⟨by decide, by decide, by decide,
    radar_legend_iff_multiple ["A", "B", "C"] [[2, 4, 6], [1, 3, 5]]
      (by decide) (by decide) (by decide)⟩

/-- C7: a supplied-but-empty group sequence is treated exactly as an
absent one (Python truthiness): the whole call behaves identically to the
call with `groups=None`, no count-mismatch Exception can arise, and every
drawn series carries the positional default name "Group i+1". -/
theorem radar_empty_groups_absent (labels : List String) (values : ValuesArg) :
    radar_chart labels values (some []) = radar_chart labels values none
  ∧ isGroupMismatch (radar_chart labels values (some [])).outcome = false
  ∧ (radar_chart labels values (some [])).drawn.map DrawnSeries.name
      = (List.range (radar_chart labels values (some [])).drawn.length).map
          defaultName := by
  have heq : radar_chart labels values (some []) = radar_chart labels values none := by
    simp only [radar_chart, drawLoop_some_nil]
  refine ⟨heq, ?_, ?_⟩
  · rw [heq, radar_chart_outcome_def]
    have hnm := drawLoop_no_mismatch (thetaList labels.length) none
      (normalizeValues labels values).length (by intro j m; simp [groupName])
      (normalizeValues labels values) 0
    rcases h2 : (drawLoop (thetaList labels.length) none
        (normalizeValues labels values).length (normalizeValues labels values) 0).2
      with _ | e
    · rfl
    · cases e with
      | indexError => rfl
      | groupMismatch m =>
        rw [h2] at hnm
        simp [isMismatchEnd] at hnm
      | plotValueError => rfl
  · rw [heq, radar_chart_drawn_def]
    have h := drawLoop_none_names (thetaList labels.length)
      (normalizeValues labels values).length (normalizeValues labels values) 0
    rw [h]
    exact List.map_congr_left fun k _ => by rw [Nat.zero_add]

/-- C8: with zero labels the angular-spacing computation divides by
`float(0)`: every theta entry is the degenerate non-finite value (modelled
as `none`), and the call is not rejected beforehand — every zero-label
call still reaches and records this degenerate array of length 0 + 1. -/
theorem radar_zero_labels_degenerate (vs : List ℚ) (g : Option (List GEntry)) :
    (radar_chart [] (.flat vs) g).theta = [none]
  ∧ (∀ i : ℕ, thetaEntry 0 i = none)
  ∧ (thetaList 0).length = 0 + 1 := by
  refine ⟨?_, fun i => rfl, rfl⟩
  rw [radar_chart_theta_def]
  rfl

/-- C9: when a correct-length non-empty group sequence is supplied, the
display name of series i is `groups[i][0]`: a flat sequence of strings
labels each series with only the first character of its name, while a
sequence of one-element lists yields the full names. -/
theorem radar_group_first_element (labels : List String) (rows : List (List ℚ))
    (names : List String)
    (hN : 1 ≤ labels.length)
    (hlen : ∀ r ∈ rows, r.length = labels.length)
    (hnowrap : rows.length ≠ labels.length)
    (hcnt : names.length = rows.length)
    (hnz : ∀ s ∈ names, s ≠ "") :
    (radar_chart labels (.nested rows) (some (names.map GEntry.gstr))).drawn.map
        DrawnSeries.name = names.map (fun s => s.take 1)
  ∧ (radar_chart labels (.nested rows)
        (some (names.map fun s => GEntry.glist [s]))).drawn.map DrawnSeries.name
      = names := by
  by_cases h0 : names = []
  · subst h0
    have hrows : rows = [] := List.eq_nil_of_length_eq_zero (by simpa using hcnt.symm)
    subst hrows
    have hnorm : normalizeValues labels (.nested ([] : List (List ℚ))) = [] := by
      simp only [normalizeValues, List.length_nil]
      rw [if_neg (by omega)]
      rfl
    constructor <;> simp [radar_chart_drawn_def, hnorm, drawLoop]
  · constructor
    · have hname : ∀ k, k < rows.length →
          groupName (some (names.map GEntry.gstr)) rows.length k
            = .ok ((names.getD k "").take 1) :=
        fun k hk => groupName_flat names rows.length k h0 hcnt hk hnz
      have h := radar_chart_nested_ok labels rows (some (names.map GEntry.gstr))
        (fun k => (names.getD k "").take 1) hN hlen hnowrap hname
      rw [h]
      dsimp only
      rw [drawnOf_map_name]
      have hshift : (List.range rows.length).map
            (fun k => (names.getD (0 + k) "").take 1)
          = (List.range names.length).map (fun k => (names.getD k "").take 1) := by
        rw [hcnt]
        exact List.map_congr_left fun k _ => by rw [Nat.zero_add]
      rw [hshift]
      exact range_map_getD names "" (fun s => s.take 1)
    · have hname : ∀ k, k < rows.length →
          groupName (some (names.map fun s => GEntry.glist [s])) rows.length k
            = .ok (names.getD k "") :=
        fun k hk => groupName_nested names rows.length k h0 hcnt hk
      have h := radar_chart_nested_ok labels rows
        (some (names.map fun s => GEntry.glist [s]))
        (fun k => names.getD k "") hN hlen hnowrap hname
      rw [h]
      dsimp only
      rw [drawnOf_map_name]
      have hshift : (List.range rows.length).map (fun k => names.getD (0 + k) "")
          = (List.range names.length).map (fun k => names.getD k "") := by
        rw [hcnt]
        exact List.map_congr_left fun k _ => by rw [Nat.zero_add]
      rw [hshift]
      have hid := range_map_getD names "" (fun s => s)
      simpa using hid

theorem radar_group_first_element_witness :
    (1 ≤ (["A", "B", "C"] : List String).length)
  ∧ (∀ r ∈ ([[1, 2, 3], [4, 5, 6]] : List (List ℚ)),
      r.length = (["A", "B", "C"] : List String).length)
  ∧ (([[1, 2, 3], [4, 5, 6]] : List (List ℚ)).length
      ≠ (["A", "B", "C"] : List String).length)
  ∧ ((["Messi", "Oblak"] : List String).length
      = ([[1, 2, 3], [4, 5, 6]] : List (List ℚ)).length)
  ∧ (∀ s ∈ (["Messi", "Oblak"] : List String), s ≠ "")
  ∧ ((radar_chart ["A", "B", "C"] (.nested [[1, 2, 3], [4, 5, 6]])
        (some ((["Messi", "Oblak"] : List String).map GEntry.gstr))).drawn.map
          DrawnSeries.name
        = (["Messi", "Oblak"] : List String).map (fun s => s.take 1)
    ∧ (radar_chart ["A", "B", "C"] (.nested [[1, 2, 3], [4, 5, 6]])
        (some ((["Messi", "Oblak"] : List String).map
          fun s => GEntry.glist [s]))).drawn.map DrawnSeries.name
        = (["Messi", "Oblak"] : List String)) :=
  ⟨by decide, by decide, by decide, by decide, by decide,
    radar_group_first_element ["A", "B", "C"] [[1, 2, 3], [4, 5, 6]]
      ["Messi", "Oblak"] (by decide) (by decide) (by decide) (by decide)
      (by decide)⟩

/-- C10 counterexample: `[[5]]` is a list of exactly N = 1 series over
N = 1 label; it is wrapped again into a single pseudo-series, yet the call
still draws exactly N = 1 polygon — the closed polygon `[5, 5]` of the one
series — so this square input IS rendered as its N separate polygons. -/
theorem radar_square_wrap_cex :
    normalizeValues ["A"] (.nested [[5]]) = [Row.mat [[5]]]
  ∧ (radar_chart ["A"] (.nested [[5]]) none).drawn.map DrawnSeries.vertices
      = [[5, 5]]
  ∧ (radar_chart ["A"] (.nested [[5]]) none).drawn.length
      = ([[5]] : List (List ℚ)).length
  ∧ (radar_chart ["A"] (.nested [[5]]) none).outcome = .ok none :=
  ⟨by decide, by decide, by decide, by decide⟩

/-- C10 amended: the promotion happens whenever `len(values)` equals
`len(labels)` regardless of flatness, so a list of exactly N series over N
labels is wrapped again into a single 2-d pseudo-series; for N ≥ 2 such a
square input is not rendered as N separate polygons — the single merged
plot attempt has N² + N vertices against N + 1 angular positions, the
backend rejects it, and nothing is drawn.  (For N = 1 the wrapped
rendering coincides with the intended single polygon.) -/
theorem radar_square_wrapped (labels : List String) (rows : List (List ℚ))
    (hsq : rows.length = labels.length)
    (hN : 2 ≤ labels.length)
    (hrlen : ∀ r ∈ rows, r.length = labels.length) :
    normalizeValues labels (.nested rows) = [Row.mat rows]
  ∧ (radar_chart labels (.nested rows) none).drawn = []
  ∧ (radar_chart labels (.nested rows) none).outcome
      = .error .plotValueError := by
  have h1 : normalizeValues labels (.nested rows) = [Row.mat rows] := by
    simp [normalizeValues, hsq]
  obtain ⟨r, rest, rfl⟩ : ∃ r rest, rows = r :: rest := by
    cases rows with
    | nil => simp at hsq; omega
    | cons a b => exact ⟨a, b, rfl⟩
  have hmap : (r :: rest).map List.length
      = List.replicate ((r :: rest).map List.length).length labels.length :=
    List.eq_replicate_of_mem (by simpa using hrlen)
  have hflat : ((r :: rest).flatten).length
      = (r :: rest).length * labels.length := by
    rw [List.length_flatten, hmap, List.sum_replicate, smul_eq_mul,
      List.length_map]
  have hclen : ((r :: rest).flatten ++ r).length
      ≠ (thetaList labels.length).length := by
    rw [thetaList_length, List.length_append, hflat, hsq,
      hrlen r (by simp)]
    intro hEq
    have h2 : labels.length * labels.length = 1 := by omega
    have := Nat.eq_one_of_mul_eq_one_right h2
    omega
  refine ⟨h1, ?_, ?_⟩
  · rw [radar_chart_drawn_def, h1]
    simp only [drawLoop, rowFirst, rowFlatten, groupName_none,
      List.length_singleton]
    rw [if_neg (by simpa using hclen)]
  · rw [radar_chart_outcome_def, h1]
    simp only [drawLoop, rowFirst, rowFlatten, groupName_none,
      List.length_singleton]
    rw [if_neg (by simpa using hclen)]

theorem radar_square_wrapped_witness :
    (([[1, 2], [3, 4]] : List (List ℚ)).length
      = (["A", "B"] : List String).length)
  ∧ (2 ≤ (["A", "B"] : List String).length)
  ∧ (∀ r ∈ ([[1, 2], [3, 4]] : List (List ℚ)),
      r.length = (["A", "B"] : List String).length)
  ∧ (normalizeValues ["A", "B"] (.nested [[1, 2], [3, 4]])
        = [Row.mat [[1, 2], [3, 4]]]
    ∧ (radar_chart ["A", "B"] (.nested [[1, 2], [3, 4]]) none).drawn = []
    ∧ (radar_chart ["A", "B"] (.nested [[1, 2], [3, 4]]) none).outcome
        = .error .plotValueError) :=
  ⟨by decide, by decide, by decide,
    radar_square_wrapped ["A", "B"] [[1, 2], [3, 4]] (by decide) (by decide)
      (by decide)⟩
